import Mathlib

/-!
Shallow embedding of the Rudolf product-feed and ranking core
(`src/services/recommender.ts`, `src/services/bandit.ts`,
`src/workers/event_consumer.ts`, `src/workers/feature_worker.ts`,
`src/utils/diversity.ts`, `src/utils/fuzzy.ts`, CF worker) together with
theorems checking the specification's claims against it.

Numbers that the TypeScript code manipulates as JS numbers are modelled as
rationals (`ℚ`), except the Beta sampler where `Real.log` forces `ℝ`.
Redis structures are modelled as explicit functional state: lists for
session trails, association lists (in insertion order, mirroring JS `Map`)
for the candidate map, and per-key field records for the bandit hashes.
-/

namespace Rudolf

/-- Interaction/event type, `type ∈ {VIEW, CLICK, CART, PURCHASE}`. -/
inductive EventType where
  | VIEW | CLICK | CART | PURCHASE
deriving DecidableEq, Repr

/-- Product meta blob as cached by `loadProductMeta` / the feature worker:
`{title, merchantId, productCategoryId, popularity}`. -/
structure Meta where
  title : String
  merchantId : String
  productCategoryId : String
  popularity : ℚ
deriving DecidableEq, Repr

/-- Entry of the `results` array in `getFeed`: `{id, score, meta}`. -/
structure ScoredItem where
  id : String
  score : ℚ
  meta : Meta
deriving DecidableEq, Repr

/-- Item of the value returned by `getFeed` (score plus the product id; the
product row assembly in step 10 of `getFeed` preserves both). -/
structure FeedItem where
  id : String
  score : ℚ
deriving DecidableEq, Repr

/-- Result record of `getFeed`: `{items, cursor}`. -/
structure FeedResult where
  items : List FeedItem
  cursor : Option String
deriving DecidableEq, Repr

/-- Parameters of `getFeed` (`FeedParams` in `recommender.ts`). -/
structure FeedParams where
  userId : Option String := none
  searchText : Option String := none
  productCategoryId : Option String := none
  cursor : Option String := none
  limit : Option ℕ := none
  sessionId : Option String := none

/-- JS truthiness for an optional string: `null`/`undefined` and the empty
string are falsy.  Returns the string when truthy. -/
def truthyStr : Option String → Option String
  | none => none
  | some s => if s = "" then none else some s

/-- `DEFAULT_LIMIT = 30` in `recommender.ts`. -/
def DEFAULT_LIMIT : ℕ := 30

/-- `CANDIDATE_K = 200` in `recommender.ts`. -/
def CANDIDATE_K : ℕ := 200

/-- The external world visible to one `getFeed` request.  Each field is the
value the corresponding Redis / Postgres read would produce during the
request (the code performs no write that it later reads back). -/
structure Env where
  /-- `redis.zrevrange(KEYS.userTopK(u), 0, k-1, WITHSCORES)` decoded into
  `(id, score)` pairs, before the `take` of the requested range. -/
  userTopK : String → List (String × ℚ)
  /-- `redis.zrevrange(KEYS.globalTop, ...)` decoded the same way. -/
  globalTop : List (String × ℚ)
  /-- Rows of the fuzzy-search SQL for a query: `(id, sim)` in the order the
  database returns them (best similarity first). -/
  fuzzy : String → List (String × ℚ)
  /-- Products of a category ordered by popularity descending, as
  `(id, popularity)` rows. -/
  categoryProducts : String → List (String × ℚ)
  /-- Combined product-meta lookup of `loadProductMeta` (Redis hash with DB
  fallback); `none` when the product is unknown to both. -/
  meta : String → Option Meta
  /-- Outcome of `sampleMerchantBoost(merchantId)`: `some v` when the promise
  resolves with `v`, `none` when it rejects (the `.catch` case). -/
  banditSample : String → Option ℚ
  /-- `redis.lrange(KEYS.sessionRecent(sid), 0, 20)` is a prefix of this
  list (the whole session trail, newest first). -/
  sessionTrail : String → List String

/-- JS `Map.set` on an association list kept in insertion order: an existing
key is updated in place, a new key is appended. -/
def mapSet : List (String × ℚ) → String → ℚ → List (String × ℚ)
  | [], id, v => [(id, v)]
  | (k, w) :: rest, id, v =>
    if k = id then (k, v) :: rest else (k, w) :: mapSet rest id v

/-- Effective limit: `limit = DEFAULT_LIMIT` when the parameter is absent. -/
def limitOf (p : FeedParams) : ℕ := p.limit.getD DEFAULT_LIMIT

/-- Step 1 of `getFeed`: seed the candidate map from the precomputed user
top-K (`getPrecomputedUserTop` returns `[]` for a falsy `userId`). -/
def candAfterUser (env : Env) (p : FeedParams) : List (String × ℚ) :=
  let userTop : List (String × ℚ) :=
    match truthyStr p.userId with
    | none => []
    | some u => (env.userTopK u).take CANDIDATE_K
  userTop.foldl (fun m r => mapSet m r.1 r.2) []

/-- `fuzzySearchProductIds(searchText, 200)`: SQL rows limited to 200, each
similarity clamped by `Math.min(1, Number(r.sim) || 0)`.  Ran only when
`searchText` is truthy and non-blank after `trim`. -/
def textMatchesOf (env : Env) (p : FeedParams) : List (String × ℚ) :=
  match truthyStr p.searchText with
  | none => []
  | some s =>
    if s.trim = "" then []
    else ((env.fuzzy s).take 200).map (fun r => (r.1, min 1 r.2))

/-- Step 2 of `getFeed`: merge text matches into the candidate map with
`baseScore ← max(existing, 0.05 + textScore*0.8)`, inserting when absent. -/
def candAfterText (env : Env) (p : FeedParams) : List (String × ℚ) :=
  (textMatchesOf env p).foldl
    (fun m r =>
      match List.lookup r.1 m with
      | some cur => mapSet m r.1 (max cur (0.05 + r.2 * 0.8))
      | none => mapSet m r.1 (0.05 + r.2 * 0.8))
    (candAfterUser env p)

/-- Step 3 of `getFeed`: global popularity backfill when the candidate map
has fewer than `limit*3` entries; absent ids get `baseScore = score*0.6`. -/
def candAfterGlobal (env : Env) (p : FeedParams) : List (String × ℚ) :=
  let m := candAfterText env p
  if m.length < limitOf p * 3 then
    (env.globalTop.take 200).foldl
      (fun m g => if (List.lookup g.1 m).isSome then m else mapSet m g.1 (g.2 * 0.6)) m
  else m

/-- Step 4 of `getFeed`: category backfill when a category filter is set and
the map has fewer than `limit*2` entries; absent ids get `popularity*0.5`. -/
def candFinal (env : Env) (p : FeedParams) : List (String × ℚ) :=
  let m := candAfterGlobal env p
  match truthyStr p.productCategoryId with
  | none => m
  | some c =>
    if m.length < limitOf p * 2 then
      ((env.categoryProducts c).take 200).foldl
        (fun m r => if (List.lookup r.1 m).isSome then m else mapSet m r.1 (r.2 * 0.5)) m
    else m

/-- Step 5 of `getFeed`: `candidateIds = [...candidatesMap.keys()].slice(0, CANDIDATE_K)`. -/
def candidateIds (env : Env) (p : FeedParams) : List String :=
  ((candFinal env p).map Prod.fst).take CANDIDATE_K

/-- `candidatesMap.get(id)?.baseScore ?? 0.01`. -/
def baseOf (env : Env) (p : FeedParams) (id : String) : ℚ :=
  (List.lookup id (candFinal env p)).getD 0.01

/-- `textMatches.find(t => t.id === id)?.textScore ?? 0`. -/
def textScoreOf (env : Env) (p : FeedParams) (id : String) : ℚ :=
  (List.lookup id (textMatchesOf env p)).getD 0

/-- `await sampleMerchantBoost(meta.merchantId).catch(() => 0.5)`. -/
def merchantBoostOf (env : Env) (mt : Meta) : ℚ :=
  (env.banditSample mt.merchantId).getD 0.5

/-- Session affinity in `getFeed`: 1.0 when the id occurs in
`redis.lrange(sessionRecent(sid), 0, 20)` — an inclusive range, hence the
first 21 trail entries — and 0 otherwise (or when `sessionId` is falsy). -/
def sessionAffinityOf (env : Env) (p : FeedParams) (id : String) : ℚ :=
  match truthyStr p.sessionId with
  | none => 0
  | some sid => if id ∈ (env.sessionTrail sid).take 21 then 1 else 0

/-- `wText = searchText ? 0.20 : 0.05` (plain JS truthiness, no trim). -/
def wTextOf (p : FeedParams) : ℚ :=
  if (truthyStr p.searchText).isSome then 0.20 else 0.05

/-- Step 6 of `getFeed`: the weighted sum
`wCF*base + wPop*popularity + wBandit*merchantBoost + wText*textScore + wSess*sessionAffinity`
with `wCF=0.45`, `wPop=0.18`, `wBandit=0.12`, `wSess=0.1`. -/
def fuseScore (env : Env) (p : FeedParams) (id : String) (mt : Meta) : ℚ :=
  0.45 * baseOf env p id + 0.18 * mt.popularity + 0.12 * merchantBoostOf env mt
    + wTextOf p * textScoreOf env p id + 0.1 * sessionAffinityOf env p id

/-- Step 6 of `getFeed`: one `{id, score, meta}` row per candidate whose meta
is present (`if (!meta) continue` drops the rest). -/
def resultsOf (env : Env) (p : FeedParams) : List ScoredItem :=
  (candidateIds env p).filterMap
    (fun id => (env.meta id).map (fun mt => ⟨id, fuseScore env p id mt, mt⟩))

/-- Comparator of step 7, `(a, b) => b.score - a.score`: `a` may stay before
`b` exactly when `b.score ≤ a.score` (descending, stable). -/
def scoreDesc (x y : ScoredItem) : Bool := y.score ≤ x.score

/-- Step 7 of `getFeed`: `results.sort((a, b) => b.score - a.score)`. -/
def finalSortedOf (env : Env) (p : FeedParams) : List ScoredItem :=
  (resultsOf env p).mergeSort scoreDesc

/-- Options of `ensureDiversity` in `diversity.ts`. -/
structure DivOpts where
  maxSameMerchantConsecutive : ℕ
  maxMerchantTotalRatio : ℚ
  maxCategoryTotalRatio : ℚ

/-- JS `out.slice(-k)`: the last `k` elements for `k > 0` (clamped to the
whole array when `k > out.length`); `slice(-0)` is `slice(0)`, the whole
array. -/
def lastSlice (k : ℕ) (out : List ScoredItem) : List ScoredItem :=
  if k = 0 then out else out.drop (out.length - k)

/-- `lastViolates` in `ensureDiversity`: the last `maxSameMerchantConsecutive`
output items all share the candidate's merchant and there are at least that
many of them. -/
def lastViolatesB (k : ℕ) (out : List ScoredItem) (m : String) : Bool :=
  let lastK := lastSlice k out
  lastK.all (fun x => x.meta.merchantId == m) && decide (k ≤ lastK.length)

/-- Acceptance test of the scan in `ensureDiversity`: no consecutive-run
violation, merchant count below `maxMerchantTotal`, category count below
`maxCategoryTotal`.  Counts live in `ℕ`; the ceilings are integers so that
negative ratios behave as in the source. -/
def acceptB (opts : DivOpts) (Mmax Cmax : ℤ) (mc cc : String → ℕ)
    (out : List ScoredItem) (cand : ScoredItem) : Bool :=
  !(lastViolatesB opts.maxSameMerchantConsecutive out cand.meta.merchantId)
    && decide ((mc cand.meta.merchantId : ℤ) < Mmax)
    && decide ((cc cand.meta.productCategoryId : ℤ) < Cmax)

/-- First list element satisfying `p` together with the list with that
element removed (the `pool.splice(pickedIndex, 1)` of the source);
`none` when no element qualifies. -/
def extractFirst {α : Type} (p : α → Bool) : List α → Option (α × List α)
  | [] => none
  | x :: xs =>
    if p x then some (x, xs)
    else (extractFirst p xs).map (fun r => (r.1, x :: r.2))

/-- Bump a counter map at one key (`merchantCount.set(m, (get ?? 0) + 1)`). -/
def bump (f : String → ℕ) (k : String) : String → ℕ :=
  fun x => if x = k then f k + 1 else f x

theorem extractFirst_some {α : Type} (p : α → Bool) :
    ∀ (l : List α) (a : α) (l' : List α),
      extractFirst p l = some (a, l') → l.Perm (a :: l') ∧ l'.length + 1 = l.length := by
  intro l
  induction l with
  | nil => intro a l' h; simp [extractFirst] at h
  | cons x xs ih =>
    intro a l' h
    by_cases hx : p x
    · simp only [extractFirst, hx, if_true] at h
      obtain ⟨rfl, rfl⟩ := Prod.mk.injEq .. ▸ Option.some.injEq .. ▸ h
      exact ⟨List.Perm.refl _, rfl⟩
    · cases hrec : extractFirst p xs with
      | none => simp [extractFirst, hx, hrec] at h
      | some r =>
        obtain ⟨b, ys⟩ := r
        simp only [extractFirst, hx, if_false, hrec, Option.map_some'] at h
        injection h with h'
        injection h' with hb hl
        subst hb; subst hl
        obtain ⟨hperm, hlen⟩ := ih b ys hrec
        constructor
        · exact (hperm.cons x).trans (List.Perm.swap b x ys)
        · simp [← hlen]

/-- The `while (pool.length && out.length < N)` loop of `ensureDiversity`.
Each iteration moves exactly one pool element to the output: the first
acceptable one, or — relaxation — the pool head when none qualifies (the
relaxation branch does not update the counters, as in the source). -/
def diversifyLoop (opts : DivOpts) (N : ℕ) (Mmax Cmax : ℤ) (mc cc : String → ℕ)
    (out pool : List ScoredItem) : List ScoredItem :=
  if pool = [] ∨ N ≤ out.length then out
  else
    match hp : pool with
    | [] => out
    | topC :: rest =>
      match hx : extractFirst (acceptB opts Mmax Cmax mc cc out) (topC :: rest) with
      | some (picked, rest2) =>
        diversifyLoop opts N Mmax Cmax
          (bump mc picked.meta.merchantId) (bump cc picked.meta.productCategoryId)
          (out ++ [picked]) rest2
      | none =>
        diversifyLoop opts N Mmax Cmax mc cc (out ++ [topC]) rest
termination_by pool.length
decreasing_by
  · have h2 := (extractFirst_some _ _ _ _ hx).2
    simp only [hp, List.length_cons] at h2 ⊢
    omega
  · simp only [hp, List.length_cons]
    omega

/-- `ensureDiversity(items, opts)` from `diversity.ts`.  `Mmax`/`Cmax` are
`Math.ceil(N * ratio)`.  (The source computes the products in binary floating
point; the rational ceilings here can differ on a few `N`, which affects only
which element the scan picks, never the multiset of the output.) -/
def ensureDiversity (items : List ScoredItem) (opts : DivOpts) : List ScoredItem :=
  if items = [] then items
  else
    diversifyLoop opts items.length
      ⌈(items.length : ℚ) * opts.maxMerchantTotalRatio⌉
      ⌈(items.length : ℚ) * opts.maxCategoryTotalRatio⌉
      (fun _ => 0) (fun _ => 0) [] items

/-- The diversity options `getFeed` passes in step 8. -/
def feedDivOpts : DivOpts :=
  { maxSameMerchantConsecutive := 1
    maxMerchantTotalRatio := 0.25
    maxCategoryTotalRatio := 0.4 }

/-- Step 8 of `getFeed`. -/
def reRankedOf (env : Env) (p : FeedParams) : List ScoredItem :=
  ensureDiversity (finalSortedOf env p) feedDivOpts

/-- Steps 9–10 of `getFeed`: `reRanked.slice(0, Math.max(limit, 50))` then
`page.slice(0, limit)`. -/
def pageOf (env : Env) (p : FeedParams) : List ScoredItem :=
  ((reRankedOf env p).take (max (limitOf p) 50)).take (limitOf p)

/-- `getFeed` of `recommender.ts` as a function of the observed environment.
The final product-row batch lookup preserves ids and scores (a missing row is
replaced by a stub with the same id), so items are reported as `(id, score)`;
the cursor is the id of the last returned item. -/
def getFeed (env : Env) (p : FeedParams) : FeedResult :=
  let pageToReturn := pageOf env p
  { items := pageToReturn.map (fun r => ⟨r.id, r.score⟩)
    cursor := (pageToReturn.getLast?).map (fun r => r.id) }

/-- Fields `a` and `b` of one Redis hash `bandit:*`; `none` = field absent. -/
structure ABHash where
  a : Option ℤ := none
  b : Option ℤ := none
deriving DecidableEq, Repr

/-- The bandit keyspace: full Redis key → hash. A key that was never written
has both fields absent. -/
def BanditStore : Type := String → ABHash

/-- Fresh bandit keyspace. -/
def emptyBandit : BanditStore := fun _ => {}

/-- `KEYS.merchantBeta(merchantId)`. -/
def merchantBetaKey (merchantId : String) : String :=
  "bandit:merchant:" ++ merchantId

/-- `KEYS.categoryBeta(catId)`. -/
def categoryBetaKey (catId : String) : String :=
  "bandit:category:" ++ catId

/-- `redis.hincrby(key, field, 1)` on the `a` field: absent counts as 0. -/
def hincrA (st : BanditStore) (key : String) : BanditStore :=
  fun k => if k = key then { st key with a := some ((st key).a.getD 0 + 1) } else st k

/-- `redis.hincrby(key, field, 1)` on the `b` field. -/
def hincrB (st : BanditStore) (key : String) : BanditStore :=
  fun k => if k = key then { st key with b := some ((st key).b.getD 0 + 1) } else st k

/-- `recordBanditOutcome(key, success)` from `bandit.ts`: increment `a` on
success, else `b`. -/
def recordBanditOutcome (st : BanditStore) (key : String) (success : Bool) : BanditStore :=
  if success then hincrA st key else hincrB st key

/-- `getAB(key)` from `bandit.ts`: `Number(data[i] || 1)` — an absent field
reads as 1, a present integer field reads as its value (the string `"0"` is
truthy in JS, so a stored 0 would read as 0; our increments never store 0). -/
def getAB (st : BanditStore) (key : String) : ℤ × ℤ :=
  ((st key).a.getD 1, (st key).b.getD 1)

/-- Record a whole sequence of outcomes on one key, in order. -/
def applyOutcomes (st : BanditStore) (key : String) (outs : List Bool) : BanditStore :=
  outs.foldl (fun st s => recordBanditOutcome st key s) st

/-- `sampleBeta(a, b)` from `bandit.ts` as a function of the two uniform
draws `ua`, `ub` of `Math.random()` (each in `[0, 1)`).  The JS code computes
`ga = -Math.log(ua) * a`, `gb = -Math.log(ub) * b` and returns
`ga / (ga + gb)` with no resampling.  Modelled over `ℝ`, with the IEEE edge
cases at a zero draw made explicit: `Math.log 0 = -∞`, so `ua = 0` gives
`ga = ∞` and `∞/∞ = NaN` (modelled `none`), while `ua ≠ 0`, `ub = 0` gives
`gb = ∞` and a finite numerator over `∞`, which is exactly `0`. -/
noncomputable def sampleBeta (a b ua ub : ℝ) : Option ℝ :=
  if ua = 0 then none
  else if ub = 0 then some 0
  else some ((-Real.log ua * a) / (-Real.log ua * a + -Real.log ub * b))

/-- An interaction event `{userId?, sessionId, productId, type}`. -/
structure Event where
  userId : Option String := none
  sessionId : Option String := none
  productId : String
  type : EventType

/-- A row appended to the `Interaction` table by the consumer. -/
structure InteractionRow where
  userId : Option String
  productId : String
  type : EventType
  value : ℚ
deriving DecidableEq, Repr

/-- State touched by the event consumer: session trails (key `sessionId`),
the bandit keyspace, and the append-only interaction log. -/
structure CState where
  trails : String → List String
  bandit : BanditStore
  interactions : List InteractionRow

/-- `lpush` then `ltrim key 0 49`: prepend and keep the first 50 entries. -/
def trailPush (t : List String) (productId : String) : List String :=
  (productId :: t).take 50

/-- The store lookup
`prisma.product.findUnique({select: {merchantId, productCategoryId}})`
visible to `handleEvent`: product id → `(merchantId, productCategoryId)`. -/
def ProductDir : Type := String → Option (String × String)

/-- The bandit update `handleEvent` makes on a successful meta lookup:
outcome recorded on the merchant key first, then the category key. -/
def recordBoth (st : BanditStore) (merchantId catId : String) (success : Bool) : BanditStore :=
  recordBanditOutcome (recordBanditOutcome st (merchantBetaKey merchantId) success)
    (categoryBetaKey catId) success

/-- `handleEvent` from `event_consumer.ts`: (1) trail push+trim (when
`sessionId` is truthy), (2) bandit outcome on merchant and category keys —
success for CLICK/PURCHASE, failure for VIEW, nothing for CART or when the
meta lookup misses — and (3) append an interaction row with `value = 1`. -/
def handleEvent (dir : ProductDir) (st : CState) (e : Event) : CState :=
  let st1 : CState :=
    match truthyStr e.sessionId with
    | none => st
    | some sid =>
      { st with trails := fun s => if s = sid then trailPush (st.trails s) e.productId else st.trails s }
  let st2 : CState :=
    match dir e.productId with
    | none => st1
    | some (merchantId, catId) =>
      match e.type with
      | .CLICK => { st1 with bandit := recordBoth st1.bandit merchantId catId true }
      | .PURCHASE => { st1 with bandit := recordBoth st1.bandit merchantId catId true }
      | .VIEW => { st1 with bandit := recordBoth st1.bandit merchantId catId false }
      | .CART => st1
  { st2 with interactions := st2.interactions ++ [⟨e.userId, e.productId, e.type, 1⟩] }

/-- Drain a whole event sequence, oldest first. -/
def applyEvents (dir : ProductDir) (st : CState) (es : List Event) : CState :=
  es.foldl (handleEvent dir) st

/-- The empty consumer state. -/
def emptyCState : CState :=
  { trails := fun _ => [], bandit := emptyBandit, interactions := [] }

/-- `CASE "type" WHEN 'VIEW' THEN 0.5 WHEN 'CLICK' THEN 1 WHEN 'CART' THEN 3
WHEN 'PURCHASE' THEN 8 ELSE 0 END` from the popularity SQL. -/
def interWeight : EventType → ℚ
  | .VIEW => 0.5
  | .CLICK => 1
  | .CART => 3
  | .PURCHASE => 8

/-- A stored interaction as seen by `computeProductPopularity`, with its
`createdAt` timestamp (any linearly ordered stamp; `ℤ` here). -/
structure StoredInteraction where
  productId : String
  type : EventType
  value : ℚ
  createdAt : ℤ
deriving DecidableEq, Repr

/-- `WHERE "createdAt" >= since`. -/
def inWindow (since : ℤ) (r : StoredInteraction) : Bool :=
  since ≤ r.createdAt

/-- `SUM(CASE ... END * "value") ... GROUP BY "productId"` restricted to one
product: the aggregated popularity score of the SQL in
`computeProductPopularity`. -/
def productScore (rows : List StoredInteraction) (since : ℤ) (p : String) : ℚ :=
  ((rows.filter (fun r => inWindow since r && r.productId == p)).map
    (fun r => interWeight r.type * r.value)).sum

/-- The distinct product ids with an interaction in the window (the SQL
`GROUP BY "productId"` groups). -/
def windowProducts (rows : List StoredInteraction) (since : ℤ) : List String :=
  ((rows.filter (inWindow since)).map (fun r => r.productId)).dedup

/-- The result set of the popularity SQL: one `(productid, score)` row per
group, `ORDER BY score DESC LIMIT 50000`. -/
def popularityRows (rows : List StoredInteraction) (since : ℤ) : List (String × ℚ) :=
  (((windowProducts rows since).map (fun p => (p, productScore rows since p))).mergeSort
    (fun x y => y.2 ≤ x.2)).take 50000

/-- The write-back loop of `computeProductPopularity`:
`prisma.product.update({data: {popularity: r.score}})` for every returned
row.  `oldPop` is the popularity column before the batch. -/
def newPopularity (rows : List StoredInteraction) (since : ℤ) (oldPop : String → ℚ) :
    String → ℚ :=
  fun p =>
    match List.lookup p (popularityRows rows since) with
    | some s => s
    | none => oldPop p

/-- One step of the CF worker's user top-K replacement, from the write side:
`DEL` empties the key, `ZADD` inserts all pairs into the (now empty) sorted
set, `EXPIRE` only touches the TTL. -/
inductive ZOp where
  | del
  | zaddAll (entries : List (String × ℚ))
  | expire
deriving DecidableEq, Repr

/-- Effect of one Redis command on the stored member set of the key. -/
def applyZOp (s : List (String × ℚ)) : ZOp → List (String × ℚ)
  | .del => []
  | .zaddAll entries => entries.foldl (fun acc r => mapSet acc r.1 r.2) s
  | .expire => s

/-- The command sequence the CF worker issues for one user key (lines
`if (args.length) await redis.del(key); if (args.length) await redis.zadd
(key, ...args); await redis.expire(key, ...)`). -/
def topKWriterOps (top : List (String × ℚ)) : List ZOp :=
  (if top = [] then [] else [ZOp.del, ZOp.zaddAll top]) ++ [ZOp.expire]

/-- Every set value a concurrent reader of the key can observe while the
writer runs: the value before each command and after the last one
(`scanl` keeps the initial state `old` as the first entry). -/
def topKObservable (old : List (String × ℚ)) (top : List (String × ℚ)) :
    List (List (String × ℚ)) :=
  (topKWriterOps top).scanl applyZOp old

/-- Increment of the `a` field of one bandit hash (`hincrby key 'a' 1`):
absent counts as 0. -/
def bumpA (h : ABHash) : ABHash := { h with a := some (h.a.getD 0 + 1) }

/-- Increment of the `b` field of one bandit hash (`hincrby key 'b' 1`). -/
def bumpB (h : ABHash) : ABHash := { h with b := some (h.b.getD 0 + 1) }

/-- Number of events of a sequence that push onto the trail of session `s`
(those whose `sessionId` is truthy and equal to `s`). -/
def pushCount (s : String) (es : List Event) : ℕ :=
  es.countP (fun e => truthyStr e.sessionId == some s)

/-- Number of interactions of one type for a product inside the aggregation
window. -/
def typeCount (rows : List StoredInteraction) (since : ℤ) (p : String)
    (t : EventType) : ℕ :=
  (rows.filter (fun r => inWindow since r && r.productId == p && r.type == t)).length

/-- Non-negativity of every score-like quantity an environment can feed into
`getFeed`: cached top-K scores, fuzzy similarities, global/category
popularity rows, meta popularity, and resolved bandit samples. -/
def EnvNonneg (env : Env) : Prop :=
  (∀ u r, r ∈ env.userTopK u → 0 ≤ r.2) ∧
  (∀ r, r ∈ env.globalTop → 0 ≤ r.2) ∧
  (∀ q r, r ∈ env.fuzzy q → 0 ≤ r.2) ∧
  (∀ c r, r ∈ env.categoryProducts c → 0 ≤ r.2) ∧
  (∀ id mt, env.meta id = some mt → 0 ≤ mt.popularity) ∧
  (∀ mid v, env.banditSample mid = some v → 0 ≤ v)

/-- Concrete old user top-K set (one member) used in the C9 scenarios. -/
def oldTopC : List (String × ℚ) := [("x", 1)]

/-- Concrete new user top-K set (one member) used in the C9 scenarios. -/
def newTopC : List (String × ℚ) := [("y", 2)]

/-- Product directory where every meta lookup misses (concrete scenarios). -/
def dir0 : ProductDir := fun _ => none

/-- Product directory mapping every product to merchant `M`, category `C`. -/
def dirMC : ProductDir := fun _ => some ("M", "C")

/-- A VIEW event on session `s`, product `P` (concrete scenarios). -/
def evS : Event := { sessionId := some "s", productId := "P", type := .VIEW }

/-- A CLICK event on product `P` with no session (concrete scenarios). -/
def evClick : Event := { productId := "P", type := .CLICK }

/-- Concrete meta row for the `getFeed` scenarios. -/
def mtA : Meta := { title := "t1", merchantId := "m1", productCategoryId := "c1", popularity := 0 }

/-- Concrete environment whose user top-K carries a negative CF score for
`p1` (CF dot products can be negative), whose meta lookup knows only `p1`,
and whose bandit sample always fails. -/
def cenvA : Env :=
  { userTopK := fun u => if u = "u1" then [("p1", -1)] else []
    globalTop := []
    fuzzy := fun _ => []
    categoryProducts := fun _ => []
    meta := fun id => if id = "p1" then some mtA else none
    banditSample := fun _ => none
    sessionTrail := fun _ => [] }

/-- Concrete feed request of user `u1` with limit 1. -/
def cpA : FeedParams := { userId := some "u1", limit := some 1 }

/-- The single item `getFeed cenvA cpA` returns. -/
def itA : FeedItem := ⟨"p1", fuseScore cenvA cpA "p1" mtA⟩

/-- Concrete feed request of user `u1` with the default limit. -/
def cpN : FeedParams := { userId := some "u1" }

/-- Trail of 21 entries whose 21st (index 20) entry is `p` (C5 scenario). -/
def trailB : List String := List.replicate 20 "q" ++ ["p"]

/-- Concrete environment for the session-affinity scenario: session `s` has
the 21-entry trail `trailB`. -/
def cenvB : Env :=
  { userTopK := fun _ => []
    globalTop := []
    fuzzy := fun _ => []
    categoryProducts := fun _ => []
    meta := fun _ => none
    banditSample := fun _ => none
    sessionTrail := fun sid => if sid = "s" then trailB else [] }

/-- Concrete feed request carrying session `s`. -/
def cpB : FeedParams := { sessionId := some "s" }

/-- Concrete non-negative environment for the C2 witness: one candidate with
score 2, known meta of popularity 3, resolved bandit sample 1/2. -/
def cenvN : Env :=
  { userTopK := fun u => if u = "u1" then [("p1", 2)] else []
    globalTop := []
    fuzzy := fun _ => []
    categoryProducts := fun _ => []
    meta := fun id =>
      if id = "p1" then some { title := "t1", merchantId := "m1", productCategoryId := "c1", popularity := 3 }
      else none
    banditSample := fun _ => some (1/2)
    sessionTrail := fun _ => [] }

/-- Concrete interaction log for the popularity witness: one VIEW and one
PURCHASE of product `P` inside the window. -/
def rowsC8 : List StoredInteraction :=
  [ { productId := "P", type := .VIEW, value := 1, createdAt := 0 },
    { productId := "P", type := .PURCHASE, value := 1, createdAt := 5 } ]

/-! ### Helper lemmas -/

theorem mapSet_keys (m : List (String × ℚ)) (id : String) (v : ℚ) :
    (mapSet m id v).map Prod.fst =
      if id ∈ m.map Prod.fst then m.map Prod.fst else m.map Prod.fst ++ [id] := by
  induction m with
  | nil => simp [mapSet]
  | cons kv rest ih =>
    obtain ⟨k, w⟩ := kv
    by_cases hk : k = id
    · subst hk
      simp [mapSet]
    · simp only [mapSet, if_neg hk, List.map_cons, ih]
      by_cases hmem : id ∈ rest.map Prod.fst
      · simp [hmem, Ne.symm hk]
      · simp [hmem, Ne.symm hk]

theorem mapSet_nodup_keys (m : List (String × ℚ)) (id : String) (v : ℚ)
    (h : (m.map Prod.fst).Nodup) : ((mapSet m id v).map Prod.fst).Nodup := by
  rw [mapSet_keys]
  by_cases hmem : id ∈ m.map Prod.fst
  · simpa [hmem]
  · simpa [hmem, List.nodup_append]

theorem mapSet_forall_values {P : ℚ → Prop} (m : List (String × ℚ)) (id : String) (v : ℚ)
    (hm : ∀ kv ∈ m, P kv.2) (hv : P v) : ∀ kv ∈ mapSet m id v, P kv.2 := by
  induction m with
  | nil => simpa [mapSet]
  | cons kv' rest ih =>
    obtain ⟨k, w⟩ := kv'
    by_cases hk : k = id
    · subst hk
      simp only [mapSet, if_pos rfl]
      intro x hx
      rcases List.mem_cons.mp hx with h1 | h1
      · subst h1; exact hv
      · exact hm _ (List.mem_cons_of_mem _ h1)
    · simp only [mapSet, if_neg hk]
      intro x hx
      rcases List.mem_cons.mp hx with h1 | h1
      · subst h1; exact hm _ (List.mem_cons_self _ _)
      · exact ih (fun kv hkv => hm _ (List.mem_cons_of_mem _ hkv)) _ h1

theorem mem_of_lookup_eq_some {α : Type} [BEq α] [LawfulBEq α] {β : Type}
    {l : List (α × β)} {k : α} {v : β} (h : List.lookup k l = some v) : (k, v) ∈ l := by
  induction l with
  | nil => simp [List.lookup] at h
  | cons kv rest ih =>
    obtain ⟨k', w⟩ := kv
    by_cases hk : k == k'
    · simp only [List.lookup, hk, cond_true] at h
      obtain rfl := Option.some.injEq .. ▸ h
      have : k = k' := eq_of_beq hk
      subst this
      exact List.mem_cons_self _ _
    · simp only [List.lookup, hk, cond_false] at h
      exact List.mem_cons_of_mem _ (ih h)

theorem lookup_eq_some_of_mem_nodup {α : Type} [BEq α] [LawfulBEq α] {β : Type}
    {l : List (α × β)} (hn : (l.map Prod.fst).Nodup) {k : α} {v : β}
    (h : (k, v) ∈ l) : List.lookup k l = some v := by
  induction l with
  | nil => simp at h
  | cons kv rest ih =>
    obtain ⟨k', w⟩ := kv
    rcases List.mem_cons.mp h with h1 | h1
    · obtain ⟨rfl, rfl⟩ := Prod.mk.injEq .. ▸ h1
      simp [List.lookup]
    · have hk : ¬(k == k') := by
        intro hbeq
        have : k = k' := eq_of_beq hbeq
        subst this
        have : k ∈ rest.map Prod.fst := by
          exact List.mem_map.mpr ⟨(k, v), h1, rfl⟩
        simp only [List.map_cons, List.nodup_cons] at hn
        exact hn.1 this
      simp only [List.lookup, Bool.not_eq_true] at hk ⊢
      rw [hk]
      simp only [cond_false]
      exact ih (by simp only [List.map_cons, List.nodup_cons] at hn; exact hn.2) h1

theorem foldl_preserve {β : Type} (step : List (String × ℚ) → β → List (String × ℚ))
    (P : List (String × ℚ) → Prop) (hstep : ∀ m b, P m → P (step m b)) :
    ∀ (l : List β) (m : List (String × ℚ)), P m → P (l.foldl step m) := by
  intro l
  induction l with
  | nil => intro m hm; simpa
  | cons b rest ih => intro m hm; exact ih _ (hstep _ _ hm)

theorem diversifyLoop_perm (opts : DivOpts) (N : ℕ) (Mmax Cmax : ℤ) :
    ∀ (n : ℕ) (pool out : List ScoredItem) (mc cc : String → ℕ),
      pool.length ≤ n → out.length + pool.length ≤ N →
      (diversifyLoop opts N Mmax Cmax mc cc out pool).Perm (out ++ pool) := by
  intro n
  induction n with
  | zero =>
    intro pool out mc cc hn hN
    have hpool : pool = [] := List.eq_nil_of_length_eq_zero (Nat.le_zero.mp hn)
    subst hpool
    rw [diversifyLoop.eq_def]
    simp
  | succ n ih =>
    intro pool out mc cc hn hN
    rw [diversifyLoop.eq_def]
    by_cases hguard : pool = [] ∨ N ≤ out.length
    · rw [if_pos hguard]
      have hpool : pool = [] := by
        rcases hguard with h | h
        · exact h
        · exact List.eq_nil_of_length_eq_zero (by omega)
      subst hpool
      simp
    · rw [if_neg hguard]
      push_neg at hguard
      obtain ⟨hne, hlt⟩ := hguard
      cases hpool : pool with
      | nil => exact absurd hpool hne
      | cons topC rest =>
        subst hpool
        simp only []
        cases hx : extractFirst (acceptB opts Mmax Cmax mc cc out) (topC :: rest) with
        | some r =>
          obtain ⟨picked, rest2⟩ := r
          obtain ⟨hperm, hlen⟩ := extractFirst_some _ _ _ _ hx
          simp only [List.length_cons] at hlen hn hN
          have h1 : (diversifyLoop opts N Mmax Cmax (bump mc picked.meta.merchantId)
              (bump cc picked.meta.productCategoryId) (out ++ [picked]) rest2).Perm
              ((out ++ [picked]) ++ rest2) := by
            apply ih
            · omega
            · simp only [List.length_append, List.length_cons, List.length_nil]
              omega
          refine h1.trans ?_
          have h2 : ((out ++ [picked]) ++ rest2) = out ++ (picked :: rest2) := by
            simp
          rw [h2]
          exact List.Perm.append_left out hperm.symm
        | none =>
          have h1 : (diversifyLoop opts N Mmax Cmax mc cc (out ++ [topC]) rest).Perm
              ((out ++ [topC]) ++ rest) := by
            apply ih
            · simp only [List.length_cons] at hn; omega
            · simp only [List.length_append, List.length_cons, List.length_nil] at hN ⊢
              omega
          refine h1.trans ?_
          simp

theorem ensureDiversity_perm_aux (items : List ScoredItem) (opts : DivOpts) :
    (ensureDiversity items opts).Perm items := by
  rw [ensureDiversity]
  by_cases h : items = []
  · simp [h]
  · rw [if_neg h]
    have := diversifyLoop_perm opts items.length
      ⌈(items.length : ℚ) * opts.maxMerchantTotalRatio⌉
      ⌈(items.length : ℚ) * opts.maxCategoryTotalRatio⌉
      items.length items [] (fun _ => 0) (fun _ => 0) le_rfl (by simp)
    simpa using this

/-- C10: for every finite input list and every option setting,
`ensureDiversity` terminates (it is a total function) and returns a
permutation of its input — same length and same multiset of items, so
diversification never drops, duplicates, or invents an item. -/
theorem ensureDiversity_preserves_items (items : List ScoredItem) (opts : DivOpts) :
    (ensureDiversity items opts).Perm items ∧
      (ensureDiversity items opts).length = items.length := by
  refine ⟨ensureDiversity_perm_aux items opts, ?_⟩
  exact (ensureDiversity_perm_aux items opts).length_eq

theorem applyOutcomes_a_field (key : String) :
    ∀ (outs : List Bool) (st : BanditStore),
      ((applyOutcomes st key outs) key).a =
        if outs.count true = 0 then (st key).a
        else some ((st key).a.getD 0 + (outs.count true : ℤ)) := by
  intro outs
  induction outs with
  | nil => intro st; simp [applyOutcomes]
  | cons s rest ih =>
    intro st
    have hstep : applyOutcomes st key (s :: rest) =
        applyOutcomes (recordBanditOutcome st key s) key rest := by
      simp [applyOutcomes]
    rw [hstep, ih]
    cases s with
    | true =>
      have hk : (recordBanditOutcome st key true key).a = some ((st key).a.getD 0 + 1) := by
        simp [recordBanditOutcome, hincrA]
      rw [List.count_cons]
      simp only [beq_self_eq_true, if_true, hk]
      by_cases hc : rest.count true = 0
      · simp [hc]
      · rw [if_neg hc, if_neg (by omega)]
        simp only [Option.getD_some]
        congr 1
        push_cast
        ring
    | false =>
      have hk : (recordBanditOutcome st key false key).a = (st key).a := by
        simp [recordBanditOutcome, hincrB]
      rw [List.count_cons]
      simp [hk]

theorem applyOutcomes_b_field (key : String) :
    ∀ (outs : List Bool) (st : BanditStore),
      ((applyOutcomes st key outs) key).b =
        if outs.count false = 0 then (st key).b
        else some ((st key).b.getD 0 + (outs.count false : ℤ)) := by
  intro outs
  induction outs with
  | nil => intro st; simp [applyOutcomes]
  | cons s rest ih =>
    intro st
    have hstep : applyOutcomes st key (s :: rest) =
        applyOutcomes (recordBanditOutcome st key s) key rest := by
      simp [applyOutcomes]
    rw [hstep, ih]
    cases s with
    | false =>
      have hk : (recordBanditOutcome st key false key).b = some ((st key).b.getD 0 + 1) := by
        simp [recordBanditOutcome, hincrB]
      rw [List.count_cons]
      simp only [beq_self_eq_true, if_true, hk]
      by_cases hc : rest.count false = 0
      · simp [hc]
      · rw [if_neg hc, if_neg (by omega)]
        simp only [Option.getD_some]
        congr 1
        push_cast
        ring
    | true =>
      have hk : (recordBanditOutcome st key true key).b = (st key).b := by
        simp [recordBanditOutcome, hincrA]
      rw [List.count_cons]
      simp [hk]

/-- C4 (amended): recording any sequence of `k` successes and `m` failures on
a key with no pre-existing posterior and reading it back with `getAB` yields
`(max k 1, max m 1)` — the increments start from 0 for an absent field and
`getAB` substitutes the default 1 only when a field is still absent, so the
read-back is NOT `(1+k, 1+m)`. -/
theorem bandit_roundtrip_read (outs : List Bool) (key : String) :
    getAB (applyOutcomes emptyBandit key outs) key =
      (max (outs.count true : ℤ) 1, max (outs.count false : ℤ) 1) := by
  rw [getAB, applyOutcomes_a_field, applyOutcomes_b_field]
  have ha : (emptyBandit key).a = none := rfl
  have hb : (emptyBandit key).b = none := rfl
  rw [ha, hb, Prod.mk.injEq]
  constructor
  · by_cases hc : outs.count true = 0
    · simp [hc]
    · rw [if_neg hc]
      simp only [Option.getD_none, Option.getD_some, zero_add]
      omega
  · by_cases hc : outs.count false = 0
    · simp [hc]
    · rw [if_neg hc]
      simp only [Option.getD_none, Option.getD_some, zero_add]
      omega

/-- C4 counterexample: one success (`k = 1`) and no failure (`m = 0`) on a
fresh key reads back as `(1, 1)`, not `(1+1, 1+0) = (2, 1)` as the claim
states: `hincrby` creates the `a` field with value 1, and `getAB` turns the
absent `b` field into 1. -/
theorem bandit_roundtrip_first_success :
    getAB (applyOutcomes emptyBandit "bandit:merchant:M" [true]) "bandit:merchant:M" = (1, 1) ∧
    ((1:ℤ), (1:ℤ)) ≠ (1 + 1, 1 + 0) := by
  constructor
  · rw [bandit_roundtrip_read]
    decide
  · decide

theorem topk_observable_cases (old top : List (String × ℚ)) (s : List (String × ℚ))
    (h : s ∈ topKObservable old top) :
    s = old ∨ s = [] ∨ s = top.foldl (fun acc r => mapSet acc r.1 r.2) [] := by
  by_cases htop : top = []
  · subst htop
    rw [topKObservable, topKWriterOps] at h
    simp [List.scanl, applyZOp] at h
    tauto
  · rw [topKObservable, topKWriterOps, if_neg htop] at h
    simp only [List.cons_append, List.nil_append, List.scanl, applyZOp,
      List.mem_cons, List.mem_singleton] at h
    tauto

/-- C9 (amended): the CF worker's user top-K replacement is `DEL` followed by
a separate `ZADD`, so a concurrent reader observes the old set, the empty
set, or the new committed set — three observable states, not two. -/
theorem topk_replace_three_states (old top : List (String × ℚ)) (s : List (String × ℚ))
    (h : s ∈ topKObservable old top) :
    s = old ∨ s = [] ∨ s = top.foldl (fun acc r => mapSet acc r.1 r.2) [] :=
  topk_observable_cases old top s h

/-- C9 witness: with old set `[("x", 1)]` and new set `[("y", 2)]`, every
state of the concrete replacement trace is old, empty, or new. -/
theorem topk_replace_three_states_check :
    (([] : List (String × ℚ)) ∈ topKObservable oldTopC newTopC) ∧
    (([] : List (String × ℚ)) = oldTopC ∨ ([] : List (String × ℚ)) = [] ∨
      ([] : List (String × ℚ)) = newTopC.foldl (fun acc r => mapSet acc r.1 r.2) []) := by
  have hmem : ([] : List (String × ℚ)) ∈ topKObservable oldTopC newTopC := by
    rw [topKObservable, topKWriterOps, if_neg (by decide : ¬newTopC = [])]
    simp [List.scanl, applyZOp]
  exact ⟨hmem, topk_replace_three_states oldTopC newTopC [] hmem⟩

/-- C9 counterexample: between the worker's `DEL` and `ZADD` a reader of the
key observes the empty set, which is neither the (non-empty) old set nor the
(non-empty) new set — the replacement is not a single observable step. -/
theorem topk_replace_partial_observable :
    (([] : List (String × ℚ)) ∈ topKObservable oldTopC newTopC) ∧
    ([] : List (String × ℚ)) ≠ oldTopC ∧
    ([] : List (String × ℚ)) ≠ newTopC ∧
    newTopC.foldl (fun acc r => mapSet acc r.1 r.2) [] = newTopC := by
  refine ⟨?_, by decide, by decide, by decide⟩
  rw [topKObservable, topKWriterOps, if_neg (by decide : ¬newTopC = [])]
  simp [List.scanl, applyZOp]

/-- C6 (amended): for positive `(α, β)` and uniform draws in the open
interval `(0, 1)` the sampler returns a value strictly inside `(0, 1)`.
(For a zero draw — possible for `Math.random()`, whose range is `[0, 1)` —
the code returns NaN or exactly 0 and never resamples; see the
counterexample.) -/
theorem sampleBeta_open_interval (a b ua ub : ℝ) (ha : 0 < a) (hb : 0 < b)
    (hua0 : 0 < ua) (hua1 : ua < 1) (hub0 : 0 < ub) (hub1 : ub < 1) :
    ∃ r, sampleBeta a b ua ub = some r ∧ 0 < r ∧ r < 1 := by
  have hua : ua ≠ 0 := ne_of_gt hua0
  have hub : ub ≠ 0 := ne_of_gt hub0
  have hga : 0 < -Real.log ua * a := mul_pos (neg_pos.mpr (Real.log_neg hua0 hua1)) ha
  have hgb : 0 < -Real.log ub * b := mul_pos (neg_pos.mpr (Real.log_neg hub0 hub1)) hb
  refine ⟨_, by rw [sampleBeta, if_neg hua, if_neg hub], ?_, ?_⟩
  · exact div_pos hga (add_pos hga hgb)
  · rw [div_lt_one (add_pos hga hgb)]
    exact lt_add_of_pos_right _ hgb

/-- C6 witness: at `α = β = 1` and draws `1/2`, `1/2` the sampler produces a
value in `(0, 1)`. -/
theorem sampleBeta_open_interval_check :
    (0:ℝ) < 1 ∧ (0:ℝ) < (1/2 : ℝ) ∧ (1/2 : ℝ) < 1 ∧
    (∃ r, sampleBeta 1 1 (1/2) (1/2) = some r ∧ 0 < r ∧ r < 1) :=
  ⟨by norm_num, by norm_num, by norm_num,
    sampleBeta_open_interval 1 1 (1/2) (1/2) (by norm_num) (by norm_num)
      (by norm_num) (by norm_num) (by norm_num) (by norm_num)⟩

/-- C6 counterexample: at `α = β = 1` with draws `ua = 1/2`, `ub = 0` — both
inside the claimed domain `[0, 1)` — the sampler returns exactly 0 (in JS:
`gb = -log(0)·1 = ∞` and `ga/∞ = 0`), which is not in the open interval
`(0, 1)`, and no resampling happens. -/
theorem sampleBeta_zero_draw :
    sampleBeta 1 1 (1/2) 0 = some 0 ∧ ¬(0 < (0:ℝ) ∧ (0:ℝ) < 1) := by
  constructor
  · rw [sampleBeta, if_neg (by norm_num : ¬(1/2 : ℝ) = 0), if_pos rfl]
  · simp

theorem handleEvent_trails (dir : ProductDir) (st : CState) (e : Event) (s : String) :
    (handleEvent dir st e).trails s =
      match truthyStr e.sessionId with
      | some sid => if s = sid then trailPush (st.trails s) e.productId else st.trails s
      | none => st.trails s := by
  obtain ⟨uid, esid, pid, ty⟩ := e
  rcases hsid : truthyStr esid with _ | sid <;>
    rcases hdir : dir pid with _ | ⟨m, c⟩ <;>
      cases ty <;>
        simp [handleEvent, hsid, hdir, recordBoth]

theorem handleEvent_bandit (dir : ProductDir) (st : CState) (e : Event) :
    (handleEvent dir st e).bandit =
      match dir e.productId with
      | none => st.bandit
      | some (m, c) =>
        match e.type with
        | .CLICK => recordBoth st.bandit m c true
        | .PURCHASE => recordBoth st.bandit m c true
        | .VIEW => recordBoth st.bandit m c false
        | .CART => st.bandit := by
  obtain ⟨uid, esid, pid, ty⟩ := e
  rcases hsid : truthyStr esid with _ | sid <;>
    rcases hdir : dir pid with _ | ⟨m, c⟩ <;>
      cases ty <;>
        simp [handleEvent, hsid, hdir]

theorem applyEvents_trails_length (dir : ProductDir) (s : String) :
    ∀ (es : List Event) (st : CState), (st.trails s).length ≤ 50 →
      ((applyEvents dir st es).trails s).length
        = min ((st.trails s).length + pushCount s es) 50 := by
  intro es
  induction es with
  | nil =>
    intro st hst
    simp only [applyEvents, List.foldl_nil, pushCount, List.countP_nil]
    omega
  | cons e rest ih =>
    intro st hst
    have hstep : applyEvents dir st (e :: rest) = applyEvents dir (handleEvent dir st e) rest := by
      simp [applyEvents]
    rw [hstep]
    have hcount : pushCount s (e :: rest) =
        pushCount s rest + if truthyStr e.sessionId == some s then 1 else 0 := by
      simp [pushCount, List.countP_cons]
    rcases hsid : truthyStr e.sessionId with _ | sid
    · have htr : (handleEvent dir st e).trails s = st.trails s := by
        rw [handleEvent_trails, hsid]
      rw [ih _ (by rw [htr]; exact hst), htr, hcount, hsid]
      simp
    · by_cases hs : s = sid
      · subst hs
        have htr : (handleEvent dir st e).trails s = trailPush (st.trails s) e.productId := by
          rw [handleEvent_trails, hsid]
          exact if_pos rfl
        have hlen : ((handleEvent dir st e).trails s).length = min ((st.trails s).length + 1) 50 := by
          rw [htr, trailPush, List.length_take, List.length_cons]
          omega
        rw [ih _ (by rw [hlen]; omega), hlen, hcount, hsid]
        simp only [beq_self_eq_true, if_true]
        omega
      · have htr : (handleEvent dir st e).trails s = st.trails s := by
          rw [handleEvent_trails, hsid]
          exact if_neg hs
        rw [ih _ (by rw [htr]; exact hst), htr, hcount, hsid]
        have hne : ((some sid : Option String) == some s) = false := by
          simp only [beq_eq_false_iff_ne, ne_eq, Option.some.injEq]
          exact fun h => hs h.symm
        rw [hne]
        simp

/-- C3 (amended): after any event sequence every session trail has at most
50 entries and the newest push sits at the head; pushing 60 ids into a fresh
session leaves exactly 50.  (Consecutive duplicate ids CAN occur — the
consumer left-pushes unconditionally — see the counterexample.) -/
theorem session_trail_bounds (dir : ProductDir) (sid : String) :
    (∀ (es : List Event) (st : CState), (∀ s, (st.trails s).length ≤ 50) →
      ∀ s, ((applyEvents dir st es).trails s).length ≤ 50) ∧
    (∀ (st : CState) (e : Event), truthyStr e.sessionId = some sid →
      ((handleEvent dir st e).trails sid).head? = some e.productId) ∧
    (∀ (es : List Event) (st : CState), st.trails sid = [] →
      (∀ e ∈ es, truthyStr e.sessionId = some sid) → es.length = 60 →
      ((applyEvents dir st es).trails sid).length = 50) := by
  refine ⟨?_, ?_, ?_⟩
  · intro es st hst s
    rw [applyEvents_trails_length dir s es st (hst s)]
    omega
  · intro st e he
    have htr : (handleEvent dir st e).trails sid = trailPush (st.trails sid) e.productId := by
      rw [handleEvent_trails, he]
      exact if_pos rfl
    rw [htr, trailPush]
    rw [show (50:ℕ) = 49 + 1 from rfl, List.take_succ_cons, List.head?_cons]
  · intro es st hempty hall hlen
    have hcount : pushCount sid es = 60 := by
      rw [pushCount, ← hlen]
      rw [List.countP_eq_length]
      intro e he
      rw [hall e he]
      simp
    rw [applyEvents_trails_length dir sid es st (by rw [hempty]; simp), hempty, hcount]
    simp only [List.length_nil]
    omega

/-- C3 witness: 60 VIEW events on a fresh session leave a trail of exactly
50 entries. -/
theorem session_trail_bounds_check :
    (emptyCState.trails "s" = [] ∧
      (∀ e ∈ List.replicate 60 evS, truthyStr e.sessionId = some "s") ∧
      (List.replicate 60 evS).length = 60) ∧
    ((applyEvents dir0 emptyCState (List.replicate 60 evS)).trails "s").length = 50 := by
  have h1 : emptyCState.trails "s" = [] := rfl
  have h2 : ∀ e ∈ List.replicate 60 evS, truthyStr e.sessionId = some "s" := by
    intro e he
    rw [List.eq_of_mem_replicate he]
    rfl
  have h3 : (List.replicate 60 evS).length = 60 := by simp
  exact ⟨⟨h1, h2, h3⟩,
    (session_trail_bounds dir0 "s").2.2 (List.replicate 60 evS) emptyCState h1 h2 h3⟩

/-- C3 counterexample: two events on the same product and session leave the
trail `["P", "P"]` — the same product id in two consecutive positions — so a
trail CAN "contain the same product id twice in consecutive positions". -/
theorem session_trail_consecutive_dup :
    (applyEvents dir0 emptyCState [evS, evS]).trails "s" = ["P", "P"] ∧
    ¬ List.Chain' (fun a b => a ≠ b) ["P", "P"] := by
  constructor
  · rfl
  · simp [List.chain'_cons]

theorem merchantBetaKey_ne_categoryBetaKey (m c : String) :
    merchantBetaKey m ≠ categoryBetaKey c := by
  intro h
  have hd : (merchantBetaKey m).data[7]? = (categoryBetaKey c).data[7]? := by rw [h]
  rw [merchantBetaKey, categoryBetaKey, String.data_append, String.data_append,
    List.getElem?_append_left (by decide), List.getElem?_append_left (by decide)] at hd
  exact absurd hd (by decide)

theorem recordBoth_apply_true (st : BanditStore) (m c : String) :
    recordBoth st m c true (merchantBetaKey m) = bumpA (st (merchantBetaKey m)) ∧
    recordBoth st m c true (categoryBetaKey c) = bumpA (st (categoryBetaKey c)) ∧
    ∀ k, k ≠ merchantBetaKey m → k ≠ categoryBetaKey c → recordBoth st m c true k = st k := by
  have hne := merchantBetaKey_ne_categoryBetaKey m c
  refine ⟨?_, ?_, ?_⟩
  · simp [recordBoth, recordBanditOutcome, hincrA, bumpA, hne]
  · simp [recordBoth, recordBanditOutcome, hincrA, bumpA, Ne.symm hne]
  · intro k hk1 hk2
    simp [recordBoth, recordBanditOutcome, hincrA, hk1, hk2]

theorem recordBoth_apply_false (st : BanditStore) (m c : String) :
    recordBoth st m c false (merchantBetaKey m) = bumpB (st (merchantBetaKey m)) ∧
    recordBoth st m c false (categoryBetaKey c) = bumpB (st (categoryBetaKey c)) ∧
    ∀ k, k ≠ merchantBetaKey m → k ≠ categoryBetaKey c → recordBoth st m c false k = st k := by
  have hne := merchantBetaKey_ne_categoryBetaKey m c
  refine ⟨?_, ?_, ?_⟩
  · simp [recordBoth, recordBanditOutcome, hincrB, bumpB, hne]
  · simp [recordBoth, recordBanditOutcome, hincrB, bumpB, Ne.symm hne]
  · intro k hk1 hk2
    simp [recordBoth, recordBanditOutcome, hincrB, hk1, hk2]

/-- C7: for every event whose product meta lookup succeeds with merchant `m`
and category `c`, the consumer records a bandit outcome on both the merchant
key and the category key — a success (the `a` field increments) when the
event type is CLICK or PURCHASE, a failure (the `b` field increments) when
the type is VIEW — touching no other key, and performs no bandit update at
all when the type is CART. -/
theorem handleEvent_bandit_updates (dir : ProductDir) (st : CState) (e : Event)
    (m c : String) (h : dir e.productId = some (m, c)) :
    ((e.type = .CLICK ∨ e.type = .PURCHASE) →
      (handleEvent dir st e).bandit (merchantBetaKey m) = bumpA (st.bandit (merchantBetaKey m)) ∧
      (handleEvent dir st e).bandit (categoryBetaKey c) = bumpA (st.bandit (categoryBetaKey c)) ∧
      ∀ k, k ≠ merchantBetaKey m → k ≠ categoryBetaKey c →
        (handleEvent dir st e).bandit k = st.bandit k) ∧
    (e.type = .VIEW →
      (handleEvent dir st e).bandit (merchantBetaKey m) = bumpB (st.bandit (merchantBetaKey m)) ∧
      (handleEvent dir st e).bandit (categoryBetaKey c) = bumpB (st.bandit (categoryBetaKey c)) ∧
      ∀ k, k ≠ merchantBetaKey m → k ≠ categoryBetaKey c →
        (handleEvent dir st e).bandit k = st.bandit k) ∧
    (e.type = .CART → (handleEvent dir st e).bandit = st.bandit) := by
  have hb := handleEvent_bandit dir st e
  rw [h] at hb
  refine ⟨?_, ?_, ?_⟩
  · intro hty
    have hb' : (handleEvent dir st e).bandit = recordBoth st.bandit m c true := by
      rcases hty with hty | hty <;> rw [hb, hty]
    rw [hb']
    exact recordBoth_apply_true st.bandit m c
  · intro hty
    have hb' : (handleEvent dir st e).bandit = recordBoth st.bandit m c false := by
      rw [hb, hty]
    rw [hb']
    exact recordBoth_apply_false st.bandit m c
  · intro hty
    rw [hb, hty]

/-- C7 witness: a CLICK on a product whose meta lookup yields merchant `M`
and category `C` increments the `a` field of both bandit keys. -/
theorem handleEvent_bandit_updates_check :
    (dirMC evClick.productId = some ("M", "C") ∧
      (evClick.type = .CLICK ∨ evClick.type = .PURCHASE)) ∧
    ((handleEvent dirMC emptyCState evClick).bandit (merchantBetaKey "M")
        = bumpA (emptyCState.bandit (merchantBetaKey "M")) ∧
      (handleEvent dirMC emptyCState evClick).bandit (categoryBetaKey "C")
        = bumpA (emptyCState.bandit (categoryBetaKey "C")) ∧
      ∀ k, k ≠ merchantBetaKey "M" → k ≠ categoryBetaKey "C" →
        (handleEvent dirMC emptyCState evClick).bandit k = emptyCState.bandit k) :=
  ⟨⟨rfl, Or.inl rfl⟩,
    (handleEvent_bandit_updates dirMC emptyCState evClick "M" "C" rfl).1 (Or.inl rfl)⟩

theorem productScore_cons (r : StoredInteraction) (rest : List StoredInteraction)
    (since : ℤ) (p : String) :
    productScore (r :: rest) since p =
      (if inWindow since r && r.productId == p then interWeight r.type * r.value else 0)
        + productScore rest since p := by
  by_cases h : (inWindow since r && r.productId == p) = true
  · simp [productScore, List.filter_cons, h]
  · have h' : (inWindow since r && r.productId == p) = false := by simpa using h
    simp [productScore, List.filter_cons, h']

theorem typeCount_cons (r : StoredInteraction) (rest : List StoredInteraction)
    (since : ℤ) (p : String) (t : EventType) :
    typeCount (r :: rest) since p t =
      (if inWindow since r && r.productId == p && r.type == t then 1 else 0)
        + typeCount rest since p t := by
  by_cases h : (inWindow since r && r.productId == p && r.type == t) = true
  · simp only [typeCount, List.filter_cons, h, if_true, List.length_cons]
    omega
  · have h' : (inWindow since r && r.productId == p && r.type == t) = false := by simpa using h
    simp [typeCount, List.filter_cons, h']

theorem productScore_counts (since : ℤ) (p : String) :
    ∀ (rows : List StoredInteraction), (∀ r ∈ rows, r.value = 1) →
      productScore rows since p =
        0.5 * (typeCount rows since p .VIEW : ℚ) + 1 * (typeCount rows since p .CLICK : ℚ)
          + 3 * (typeCount rows since p .CART : ℚ) + 8 * (typeCount rows since p .PURCHASE : ℚ) := by
  intro rows
  induction rows with
  | nil => intro _; simp [productScore, typeCount]
  | cons r rest ih =>
    intro hval
    have hv : r.value = 1 := hval r (List.mem_cons_self _ _)
    have hrest := ih (fun x hx => hval x (List.mem_cons_of_mem _ hx))
    rw [productScore_cons, hrest]
    rw [typeCount_cons, typeCount_cons, typeCount_cons, typeCount_cons]
    by_cases hbase : (inWindow since r && r.productId == p) = true
    · rw [if_pos hbase]
      cases hty : r.type <;>
        · simp [hbase, hty, hv, interWeight]
          push_cast
          ring
    · rw [if_neg hbase]
      have hb2 : ∀ t : EventType, (inWindow since r && r.productId == p && r.type == t) = false := by
        intro t
        rw [Bool.and_eq_false_iff]
        left
        exact Bool.not_eq_true _ ▸ hbase
      simp only [hb2, if_false]
      push_cast
      ring

theorem windowProducts_nodup (rows : List StoredInteraction) (since : ℤ) :
    (windowProducts rows since).Nodup :=
  List.nodup_dedup _

/-- C8: for every product with an interaction in the last-30-days window
(and room inside the SQL's `LIMIT 50000`, automatic for catalogs of at most
50000 active products), the aggregator computes the score
`0.5·views + 1·clicks + 3·carts + 8·purchases` over the window — each
interaction row carrying `value = 1` — and writes it back as the product's
popularity. -/
theorem popularity_weighted_counts (rows : List StoredInteraction) (since : ℤ)
    (oldPop : String → ℚ) (p : String)
    (hval : ∀ r ∈ rows, r.value = 1)
    (hcard : (windowProducts rows since).length ≤ 50000)
    (hp : p ∈ windowProducts rows since) :
    newPopularity rows since oldPop p =
      0.5 * (typeCount rows since p .VIEW : ℚ) + 1 * (typeCount rows since p .CLICK : ℚ)
        + 3 * (typeCount rows since p .CART : ℚ) + 8 * (typeCount rows since p .PURCHASE : ℚ) := by
  have hmapped : p ∈ windowProducts rows since := hp
  set mapped := (windowProducts rows since).map (fun q => (q, productScore rows since q)) with hm
  have hperm : (mapped.mergeSort (fun x y => y.2 ≤ x.2)).Perm mapped :=
    List.mergeSort_perm mapped _
  have hlen : (mapped.mergeSort (fun x y => y.2 ≤ x.2)).length ≤ 50000 := by
    rw [hperm.length_eq, hm, List.length_map]
    exact hcard
  have htake : popularityRows rows since = mapped.mergeSort (fun x y => y.2 ≤ x.2) := by
    rw [popularityRows, ← hm]
    exact List.take_of_length_le hlen
  have hkeys : ((mapped.mergeSort (fun x y => y.2 ≤ x.2)).map Prod.fst).Nodup := by
    have h1 : (mapped.map Prod.fst).Nodup := by
      rw [hm, List.map_map]
      have : (Prod.fst ∘ fun q => (q, productScore rows since q)) = id := rfl
      rw [this, List.map_id]
      exact windowProducts_nodup rows since
    exact ((hperm.map Prod.fst).nodup_iff).mpr h1
  have hmem : (p, productScore rows since p) ∈ mapped.mergeSort (fun x y => y.2 ≤ x.2) := by
    rw [hperm.mem_iff, hm]
    exact List.mem_map.mpr ⟨p, hmapped, rfl⟩
  have hlook : List.lookup p (popularityRows rows since) = some (productScore rows since p) := by
    rw [htake]
    exact lookup_eq_some_of_mem_nodup hkeys hmem
  rw [newPopularity, hlook]
  exact productScore_counts since p rows hval

/-- C8 witness: one VIEW and one PURCHASE of product P, each with value 1,
aggregate to `0.5·1 + 8·1` and are written back as P's popularity. -/
theorem popularity_weighted_counts_check :
    ((∀ r ∈ rowsC8, r.value = 1) ∧ (windowProducts rowsC8 0).length ≤ 50000 ∧
      "P" ∈ windowProducts rowsC8 0) ∧
    newPopularity rowsC8 0 (fun _ => 0) "P" =
      0.5 * (typeCount rowsC8 0 "P" .VIEW : ℚ) + 1 * (typeCount rowsC8 0 "P" .CLICK : ℚ)
        + 3 * (typeCount rowsC8 0 "P" .CART : ℚ) + 8 * (typeCount rowsC8 0 "P" .PURCHASE : ℚ) := by
  have h1 : ∀ r ∈ rowsC8, r.value = 1 := by
    intro r hr
    simp only [rowsC8, List.mem_cons, List.not_mem_nil, or_false] at hr
    rcases hr with h | h <;> subst h <;> rfl
  have h2 : (windowProducts rowsC8 0).length ≤ 50000 := by decide
  have h3 : "P" ∈ windowProducts rowsC8 0 := by decide
  exact ⟨⟨h1, h2, h3⟩, popularity_weighted_counts rowsC8 0 (fun _ => 0) "P" h1 h2 h3⟩

theorem foldl_preserve_mem {β : Type} (step : List (String × ℚ) → β → List (String × ℚ))
    (P : List (String × ℚ) → Prop) :
    ∀ (l : List β), (∀ m b, b ∈ l → P m → P (step m b)) →
      ∀ m, P m → P (l.foldl step m) := by
  intro l
  induction l with
  | nil => intro _ m hm; simpa
  | cons b rest ih =>
    intro hstep m hm
    exact ih (fun m' b' hb' => hstep m' b' (List.mem_cons_of_mem _ hb'))
      _ (hstep m b (List.mem_cons_self _ _) hm)

theorem candAfterUser_nodup_keys (env : Env) (p : FeedParams) :
    ((candAfterUser env p).map Prod.fst).Nodup := by
  rw [candAfterUser]
  apply foldl_preserve_mem _ (fun m => (m.map Prod.fst).Nodup)
  · intro m b _ hm
    exact mapSet_nodup_keys m b.1 b.2 hm
  · simp

theorem candAfterText_nodup_keys (env : Env) (p : FeedParams) :
    ((candAfterText env p).map Prod.fst).Nodup := by
  rw [candAfterText]
  apply foldl_preserve_mem _ (fun m => (m.map Prod.fst).Nodup)
  · intro m b _ hm
    cases List.lookup b.1 m <;> exact mapSet_nodup_keys m b.1 _ hm
  · exact candAfterUser_nodup_keys env p

theorem candAfterGlobal_nodup_keys (env : Env) (p : FeedParams) :
    ((candAfterGlobal env p).map Prod.fst).Nodup := by
  rw [candAfterGlobal]
  by_cases h : (candAfterText env p).length < limitOf p * 3
  · rw [if_pos h]
    apply foldl_preserve_mem _ (fun m => (m.map Prod.fst).Nodup)
    · intro m b _ hm
      by_cases hl : (List.lookup b.1 m).isSome
      · simpa [hl] using hm
      · simp only [hl, Bool.false_eq_true, if_false]
        exact mapSet_nodup_keys m b.1 _ hm
    · exact candAfterText_nodup_keys env p
  · rw [if_neg h]
    exact candAfterText_nodup_keys env p

theorem candFinal_nodup_keys (env : Env) (p : FeedParams) :
    ((candFinal env p).map Prod.fst).Nodup := by
  rw [candFinal]
  cases truthyStr p.productCategoryId with
  | none => exact candAfterGlobal_nodup_keys env p
  | some c =>
    by_cases h : (candAfterGlobal env p).length < limitOf p * 2
    · simp only [if_pos h]
      apply foldl_preserve_mem _ (fun m => (m.map Prod.fst).Nodup)
      · intro m b _ hm
        by_cases hl : (List.lookup b.1 m).isSome
        · simpa [hl] using hm
        · simp only [hl, Bool.false_eq_true, if_false]
          exact mapSet_nodup_keys m b.1 _ hm
      · exact candAfterGlobal_nodup_keys env p
    · simp only [if_neg h]
      exact candAfterGlobal_nodup_keys env p

theorem textMatchesOf_nonneg (env : Env) (p : FeedParams) (h : EnvNonneg env) :
    ∀ r ∈ textMatchesOf env p, 0 ≤ r.2 := by
  intro r hr
  rw [textMatchesOf] at hr
  rcases hts : truthyStr p.searchText with _ | s
  · rw [hts] at hr; simp at hr
  · rw [hts] at hr
    dsimp only at hr
    by_cases htrim : s.trim = ""
    · rw [if_pos htrim] at hr; simp at hr
    · rw [if_neg htrim] at hr
      obtain ⟨q, hq, rfl⟩ := List.mem_map.mp hr
      have hq' : q ∈ env.fuzzy s := List.take_subset _ _ hq
      have := h.2.2.1 s q hq'
      simp only []
      exact le_min (by norm_num) this

theorem candAfterUser_nonneg (env : Env) (p : FeedParams) (h : EnvNonneg env) :
    ∀ kv ∈ candAfterUser env p, 0 ≤ kv.2 := by
  rw [candAfterUser]
  rcases hu : truthyStr p.userId with _ | u
  · simp
  · apply foldl_preserve_mem _ (fun m => ∀ kv ∈ m, 0 ≤ kv.2)
    · intro m b hb hm
      apply mapSet_forall_values _ _ _ hm
      exact h.1 u b (List.take_subset _ _ hb)
    · simp

theorem candAfterText_nonneg (env : Env) (p : FeedParams) (h : EnvNonneg env) :
    ∀ kv ∈ candAfterText env p, 0 ≤ kv.2 := by
  rw [candAfterText]
  apply foldl_preserve_mem _ (fun m => ∀ kv ∈ m, 0 ≤ kv.2)
  · intro m b hb hm
    have hb2 : (0:ℚ) ≤ 0.05 + b.2 * 0.8 := by
      have := textMatchesOf_nonneg env p h b hb
      nlinarith
    cases hl : List.lookup b.1 m with
    | none => exact mapSet_forall_values _ _ _ hm hb2
    | some cur =>
      apply mapSet_forall_values _ _ _ hm
      have hcur : 0 ≤ cur := hm _ (mem_of_lookup_eq_some hl)
      exact le_trans hcur (le_max_left _ _)
  · exact candAfterUser_nonneg env p h

theorem candAfterGlobal_nonneg (env : Env) (p : FeedParams) (h : EnvNonneg env) :
    ∀ kv ∈ candAfterGlobal env p, 0 ≤ kv.2 := by
  rw [candAfterGlobal]
  by_cases hc : (candAfterText env p).length < limitOf p * 3
  · rw [if_pos hc]
    apply foldl_preserve_mem _ (fun m => ∀ kv ∈ m, 0 ≤ kv.2)
    · intro m b hb hm
      by_cases hl : (List.lookup b.1 m).isSome
      · simpa [hl] using hm
      · simp only [hl, Bool.false_eq_true, if_false]
        apply mapSet_forall_values _ _ _ hm
        have := h.2.1 b (List.take_subset _ _ hb)
        nlinarith
    · exact candAfterText_nonneg env p h
  · rw [if_neg hc]
    exact candAfterText_nonneg env p h

theorem candFinal_nonneg (env : Env) (p : FeedParams) (h : EnvNonneg env) :
    ∀ kv ∈ candFinal env p, 0 ≤ kv.2 := by
  rw [candFinal]
  cases truthyStr p.productCategoryId with
  | none => exact candAfterGlobal_nonneg env p h
  | some c =>
    by_cases hc : (candAfterGlobal env p).length < limitOf p * 2
    · simp only [if_pos hc]
      apply foldl_preserve_mem _ (fun m => ∀ kv ∈ m, 0 ≤ kv.2)
      · intro m b hb hm
        by_cases hl : (List.lookup b.1 m).isSome
        · simpa [hl] using hm
        · simp only [hl, Bool.false_eq_true, if_false]
          apply mapSet_forall_values _ _ _ hm
          have := h.2.2.2.1 c b (List.take_subset _ _ hb)
          nlinarith
      · exact candAfterGlobal_nonneg env p h
    · simp only [if_neg hc]
      exact candAfterGlobal_nonneg env p h

theorem baseOf_nonneg (env : Env) (p : FeedParams) (id : String) (h : EnvNonneg env) :
    0 ≤ baseOf env p id := by
  rw [baseOf]
  cases hl : List.lookup id (candFinal env p) with
  | none => norm_num
  | some v =>
    simp only [Option.getD_some]
    exact candFinal_nonneg env p h _ (mem_of_lookup_eq_some hl)

theorem textScoreOf_nonneg (env : Env) (p : FeedParams) (id : String) (h : EnvNonneg env) :
    0 ≤ textScoreOf env p id := by
  rw [textScoreOf]
  cases hl : List.lookup id (textMatchesOf env p) with
  | none => norm_num
  | some v =>
    simp only [Option.getD_some]
    exact textMatchesOf_nonneg env p h _ (mem_of_lookup_eq_some hl)

theorem merchantBoostOf_nonneg (env : Env) (mt : Meta) (h : EnvNonneg env) :
    0 ≤ merchantBoostOf env mt := by
  rw [merchantBoostOf]
  cases hs : env.banditSample mt.merchantId with
  | none => norm_num
  | some v =>
    simp only [Option.getD_some]
    exact h.2.2.2.2.2 mt.merchantId v hs

theorem sessionAffinityOf_nonneg (env : Env) (p : FeedParams) (id : String) :
    0 ≤ sessionAffinityOf env p id := by
  rw [sessionAffinityOf]
  cases truthyStr p.sessionId with
  | none => norm_num
  | some sid =>
    by_cases hm : id ∈ (env.sessionTrail sid).take 21 <;> simp [hm]

theorem fuseScore_nonneg (env : Env) (p : FeedParams) (id : String) (mt : Meta)
    (h : EnvNonneg env) (hmt : env.meta id = some mt) : 0 ≤ fuseScore env p id mt := by
  rw [fuseScore]
  have h1 := baseOf_nonneg env p id h
  have h2 := h.2.2.2.2.1 id mt hmt
  have h3 := merchantBoostOf_nonneg env mt h
  have h4 := textScoreOf_nonneg env p id h
  have h5 := sessionAffinityOf_nonneg env p id
  have hw : (0:ℚ) ≤ wTextOf p := by
    rw [wTextOf]
    by_cases hs : (truthyStr p.searchText).isSome <;> simp [hs] <;> norm_num
  positivity

theorem mem_resultsOf {env : Env} {p : FeedParams} {it : ScoredItem} :
    it ∈ resultsOf env p ↔
      ∃ id mt, id ∈ candidateIds env p ∧ env.meta id = some mt ∧
        it = ⟨id, fuseScore env p id mt, mt⟩ := by
  rw [resultsOf, List.mem_filterMap]
  constructor
  · rintro ⟨id, hid, hf⟩
    rcases Option.map_eq_some'.mp hf with ⟨mt, hmt, hit⟩
    exact ⟨id, mt, hid, hmt, hit.symm⟩
  · rintro ⟨id, mt, hid, hmt, hit⟩
    exact ⟨id, hid, by rw [hmt, Option.map_some', hit]⟩

theorem resultsOf_ids (env : Env) (p : FeedParams) :
    (resultsOf env p).map ScoredItem.id =
      (candidateIds env p).filter (fun id => (env.meta id).isSome) := by
  rw [resultsOf]
  induction candidateIds env p with
  | nil => simp
  | cons id rest ih =>
    cases hmt : env.meta id with
    | none => simp [List.filterMap_cons, List.filter_cons, hmt, ih]
    | some mt => simp [List.filterMap_cons, List.filter_cons, hmt, ih]

theorem candidateIds_nodup (env : Env) (p : FeedParams) : (candidateIds env p).Nodup := by
  rw [candidateIds]
  exact (List.take_sublist _ _).nodup (candFinal_nodup_keys env p)

theorem resultsOf_ids_nodup (env : Env) (p : FeedParams) :
    ((resultsOf env p).map ScoredItem.id).Nodup := by
  rw [resultsOf_ids]
  exact (candidateIds_nodup env p).filter _

theorem reRankedOf_perm_results (env : Env) (p : FeedParams) :
    (reRankedOf env p).Perm (resultsOf env p) := by
  rw [reRankedOf, finalSortedOf]
  exact (ensureDiversity_perm_aux _ _).trans (List.mergeSort_perm _ _)

theorem pageOf_subset_results (env : Env) (p : FeedParams) :
    ∀ it ∈ pageOf env p, it ∈ resultsOf env p := by
  intro it hit
  rw [pageOf] at hit
  have h1 : it ∈ reRankedOf env p :=
    List.take_subset _ _ (List.take_subset _ _ hit)
  exact (reRankedOf_perm_results env p).subset h1

theorem mem_getFeed_items {env : Env} {p : FeedParams} {it : FeedItem}
    (h : it ∈ (getFeed env p).items) :
    ∃ r ∈ resultsOf env p, it = ⟨r.id, r.score⟩ := by
  rw [getFeed] at h
  obtain ⟨r, hr, hit⟩ := List.mem_map.mp h
  exact ⟨r, pageOf_subset_results env p r hr, hit.symm⟩

/-- C1: every item returned by `getFeed` had known meta and carries the fused
score `wCF·base + wPop·popularity + wBandit·merchantSample + wText·textScore
+ wSess·sessionAffinity` with `wCF = 0.45`, `wPop = 0.18`, `wBandit = 0.12`,
`wSess = 0.1` and `wText = 0.20` when `searchText` is present (truthy) else
`0.05`, where a failed bandit sample is replaced by `0.5`; and every
candidate whose meta is missing is dropped from the results. -/
theorem getFeed_fused_score (env : Env) (p : FeedParams) :
    (∀ it ∈ (getFeed env p).items,
      ∃ mt, env.meta it.id = some mt ∧
        it.score = 0.45 * baseOf env p it.id + 0.18 * mt.popularity
          + 0.12 * ((env.banditSample mt.merchantId).getD 0.5)
          + (if (truthyStr p.searchText).isSome then (0.20:ℚ) else 0.05) * textScoreOf env p it.id
          + 0.1 * sessionAffinityOf env p it.id) ∧
    (∀ id, env.meta id = none → id ∉ (getFeed env p).items.map FeedItem.id) := by
  constructor
  · intro it hit
    obtain ⟨r, hr, rfl⟩ := mem_getFeed_items hit
    obtain ⟨id, mt, _, hmt, rfl⟩ := mem_resultsOf.mp hr
    exact ⟨mt, hmt, rfl⟩
  · intro id hid hmem
    obtain ⟨it, hit, hitid⟩ := List.mem_map.mp hmem
    obtain ⟨r, hr, rfl⟩ := mem_getFeed_items hit
    obtain ⟨id', mt, _, hmt, rfl⟩ := mem_resultsOf.mp hr
    simp only [] at hitid
    rw [hitid] at hmt
    rw [hid] at hmt
    exact Option.noConfusion hmt

/-- C2 (amended): every `getFeed` result has at most `limit` items and
pairwise-distinct product ids; and, PROVIDED every environment input score
is non-negative (user top-K entries, fuzzy similarities, global and category
popularity rows, meta popularity, resolved bandit samples), every returned
score is non-negative (finiteness is automatic in exact arithmetic).  The
non-negativity proviso is necessary: user top-K scores are CF dot products
that can be negative, and then a returned score can be negative. -/
theorem getFeed_output_invariants (env : Env) (p : FeedParams) :
    (getFeed env p).items.length ≤ limitOf p ∧
    ((getFeed env p).items.map FeedItem.id).Nodup ∧
    (EnvNonneg env → ∀ it ∈ (getFeed env p).items, 0 ≤ it.score) := by
  refine ⟨?_, ?_, ?_⟩
  · rw [getFeed]
    simp only [List.length_map, pageOf, List.length_take]
    omega
  · have hmapid : (getFeed env p).items.map FeedItem.id = (pageOf env p).map ScoredItem.id := by
      rw [getFeed]
      simp [List.map_map]
    rw [hmapid]
    have hsub : (pageOf env p).Sublist (reRankedOf env p) :=
      (List.take_sublist _ _).trans (List.take_sublist _ _)
    have hperm : ((reRankedOf env p).map ScoredItem.id).Perm
        ((resultsOf env p).map ScoredItem.id) :=
      (reRankedOf_perm_results env p).map _
    exact (hsub.map ScoredItem.id).nodup (hperm.nodup_iff.mpr (resultsOf_ids_nodup env p))
  · intro h it hit
    obtain ⟨r, hr, rfl⟩ := mem_getFeed_items hit
    obtain ⟨id, mt, _, hmt, rfl⟩ := mem_resultsOf.mp hr
    exact fuseScore_nonneg env p id mt h hmt

/-- C5 (amended): `sessionAffinityOf` — the session-affinity component of
every `getFeed` score — is 1 exactly when a (truthy) `sessionId` was supplied
and the product id appears among the 21 most recent trail entries
(`lrange key 0 20` is INCLUSIVE of index 20, so it returns 21 entries, not
20), and it takes no value other than 0 and 1. -/
theorem session_affinity_take21 (env : Env) (p : FeedParams) (id : String) :
    ((sessionAffinityOf env p id = 1) ↔
      (∃ sid, truthyStr p.sessionId = some sid ∧ id ∈ (env.sessionTrail sid).take 21)) ∧
    (sessionAffinityOf env p id = 0 ∨ sessionAffinityOf env p id = 1) := by
  rw [sessionAffinityOf]
  cases hts : truthyStr p.sessionId with
  | none =>
    constructor
    · constructor
      · intro h; exact absurd h (by norm_num)
      · rintro ⟨sid, hsid, _⟩; exact Option.noConfusion hsid
    · left; rfl
  | some sid =>
    dsimp only
    constructor
    · constructor
      · intro h
        by_cases hm : id ∈ (env.sessionTrail sid).take 21
        · exact ⟨sid, rfl, hm⟩
        · rw [if_neg hm] at h
          exact absurd h (by norm_num)
      · rintro ⟨sid', hsid', hm⟩
        obtain rfl : sid = sid' := Option.some.injEq .. ▸ hsid'
        rw [if_pos hm]
    · by_cases hm : id ∈ (env.sessionTrail sid).take 21
      · right; rw [if_pos hm]
      · left; rw [if_neg hm]

theorem resultsOf_cenvA : resultsOf cenvA cpA = [⟨"p1", fuseScore cenvA cpA "p1" mtA, mtA⟩] := rfl

theorem getFeedA_items : (getFeed cenvA cpA).items = [itA] := by
  have hsort : finalSortedOf cenvA cpA = [⟨"p1", fuseScore cenvA cpA "p1" mtA, mtA⟩] := by
    rw [finalSortedOf, resultsOf_cenvA]
    exact List.perm_singleton.mp (List.mergeSort_perm _ _)
  have hdiv : reRankedOf cenvA cpA = [⟨"p1", fuseScore cenvA cpA "p1" mtA, mtA⟩] := by
    rw [reRankedOf, hsort]
    exact List.perm_singleton.mp (ensureDiversity_perm_aux _ _)
  have hpage : pageOf cenvA cpA = [⟨"p1", fuseScore cenvA cpA "p1" mtA, mtA⟩] := by
    rw [pageOf, hdiv]
    rfl
  rw [getFeed]
  rw [hpage]
  rfl

theorem fuseScoreA : fuseScore cenvA cpA "p1" mtA = -39/100 := by
  have hb : baseOf cenvA cpA "p1" = -1 := rfl
  have hpop : mtA.popularity = 0 := rfl
  have hbo : merchantBoostOf cenvA mtA = 0.5 := rfl
  have hw : wTextOf cpA = 0.05 := rfl
  have hts : textScoreOf cenvA cpA "p1" = 0 := rfl
  have hsa : sessionAffinityOf cenvA cpA "p1" = 0 := rfl
  rw [fuseScore, hb, hpop, hbo, hw, hts, hsa]
  norm_num

/-- C2 counterexample: with a user top-K entry `("p1", -1)` (a negative CF
score), known meta of popularity 0, and a failing bandit sample, `getFeed`
returns the single item `p1` with score
`0.45·(-1) + 0.12·0.5 = -39/100 < 0` — a returned score need not be
non-negative. -/
theorem getFeed_negative_score :
    (getFeed cenvA cpA).items = [⟨"p1", -39/100⟩] ∧ ¬(0 ≤ (-39/100 : ℚ)) := by
  constructor
  · rw [getFeedA_items, itA, fuseScoreA]
  · norm_num

/-- C1 witness: the single item of the concrete feed `getFeed cenvA cpA` has
known meta and carries the fused score of its components. -/
theorem getFeed_fused_score_check :
    itA ∈ (getFeed cenvA cpA).items ∧
    (∃ mt, cenvA.meta itA.id = some mt ∧
      itA.score = 0.45 * baseOf cenvA cpA itA.id + 0.18 * mt.popularity
        + 0.12 * ((cenvA.banditSample mt.merchantId).getD 0.5)
        + (if (truthyStr cpA.searchText).isSome then (0.20:ℚ) else 0.05) * textScoreOf cenvA cpA itA.id
        + 0.1 * sessionAffinityOf cenvA cpA itA.id) := by
  have hmem : itA ∈ (getFeed cenvA cpA).items := by
    rw [getFeedA_items]
    exact List.mem_singleton.mpr rfl
  exact ⟨hmem, (getFeed_fused_score cenvA cpA).1 itA hmem⟩

/-- C2 witness: a concrete non-negative environment satisfies the proviso,
and hence every score of its feed is non-negative. -/
theorem getFeed_output_invariants_check :
    EnvNonneg cenvN ∧ (∀ it ∈ (getFeed cenvN cpN).items, 0 ≤ it.score) := by
  have hnn : EnvNonneg cenvN := by
    refine ⟨?_, ?_, ?_, ?_, ?_, ?_⟩
    · intro u r hr
      by_cases hu : u = "u1"
      · simp only [cenvN, hu, if_pos rfl] at hr
        rcases List.mem_singleton.mp hr with rfl
        norm_num
      · simp [cenvN, hu] at hr
    · intro r hr; simp [cenvN] at hr
    · intro q r hr; simp [cenvN] at hr
    · intro c r hr; simp [cenvN] at hr
    · intro id mt hmt
      by_cases hid : id = "p1"
      · subst hid
        have hm : cenvN.meta "p1" =
            some { title := "t1", merchantId := "m1", productCategoryId := "c1", popularity := 3 } := rfl
        rw [hm] at hmt
        injection hmt with hmt'
        rw [← hmt']
        exact (by norm_num : (0:ℚ) ≤ 3)
      · simp [cenvN, hid] at hmt
    · intro mid v hv
      simp only [cenvN, Option.some.injEq] at hv
      rw [← hv]
      norm_num
  exact ⟨hnn, (getFeed_output_invariants cenvN cpN).2.2 hnn⟩

/-- C5 counterexample: product `p` is NOT among the 20 most recent trail
entries of session `s` (it sits at index 20, the 21st position), yet the
code's session affinity is 1 because `lrange(key, 0, 20)` returns 21
entries. -/
theorem session_affinity_beyond_20 :
    sessionAffinityOf cenvB cpB "p" = 1 ∧ "p" ∉ (cenvB.sessionTrail "s").take 20 := by
  constructor
  · rfl
  · decide
